import Mathlib

/-!
Shallow embedding of the Dreamer training driver (`src/main.py`) as an
event-trace semantics, together with proofs of the behavioural claims
about the driver loop: batch-iterator exhaustion recovery, per-epoch
dataset re-scanning, episode/checkpoint file naming, step accounting,
loop bounds and startup directory creation.

The driver interacts with external collaborators (environment, collector,
trajectory dataset/dataloader).  Their observable behaviour at the driver
boundary is abstracted into a `World`: how many batches each epoch's
dataloader yields per pass, how many environment steps each collect call
returns, and whether the two `os.makedirs` calls succeed.  Everything the
driver itself does (lines 40-134 of `main.py`) is embedded faithfully as a
deterministic function from the `World` to a list of `Event`s plus a
success flag and the final `total_env_steps`.
-/

namespace Dreamer

/-- Configuration dataclass `DreamerConfig` from `main.py` (the fields the
driver's control flow reads; defaults as in the source). -/
structure DreamerConfig where
  domain_name : String := "cartpole"
  task_name : String := "swingup"
  action_repeats : Nat := 2
  prefill_episodes : Nat := 0
  batch_size : Nat := 50
  batch_length : Nat := 50
  training_steps : Nat := 100
  test_every : Nat := 25
deriving Repr, DecidableEq

/-- The configuration `main` constructs: `DreamerConfig()` with all defaults. -/
def defaultConfig : DreamerConfig := {}

/-- Filename of the i-th prefill episode: `f"pre_{i}.npz"` (line 81). -/
def preEpisodeName (i : Nat) : String := "pre_" ++ toString i ++ ".npz"

/-- Filename of the episode collected in epoch i: `f"{i}.npz"` (line 110). -/
def episodeName (i : Nat) : String := toString i ++ ".npz"

/-- Filename of a checkpoint: `f"{total_env_steps}.pt"` (line 123). -/
def ckptName (t : Nat) : String := toString t ++ ".pt"

/-- Observable actions of the driver, in program order. -/
inductive Event where
  | mkdirData
  | mkdirModel
  | wandbInit
  | envCreate
  | agentCreate
  | collectorCreate (train : Bool)
  | prefillCollect (episodes steps : Nat)
  | writeEpisode (name : String)
  | datasetConstruct (epoch : Nat) (files : List String)
  | iterCreate (epoch : Nat)
  | trainStep (epoch step : Nat)
  | collectEpisode (epoch steps : Nat)
  | logTrain (epoch loggedEnvSteps : Nat)
  | saveCheckpoint (epoch : Nat) (name : String)
  | testCollect (epoch steps : Nat)
  | logTest (epoch : Nat)
deriving Repr, DecidableEq

/-- Behaviour of the external collaborators at the driver boundary. -/
structure World where
  /-- Number of episodes in the list returned by the prefill collect call. -/
  prefillCount : Nat
  /-- The `total_env_steps` component returned by the prefill collect call. -/
  prefillSteps : Nat
  /-- The `env_steps` component returned by epoch i's train collect call. -/
  collectSteps : Nat → Nat
  /-- Number of batches one full pass of epoch i's dataloader yields. -/
  numBatches : Nat → Nat
  /-- The env-step count returned by the test collect call of epoch i; the
  driver unpacks and discards it (line 126). -/
  testCollectSteps : Nat → Nat := fun _ => 0
  /-- Whether `os.makedirs(data_dir)` succeeds. -/
  dataDirOk : Bool := true
  /-- Whether `os.makedirs(model_dir)` succeeds. -/
  modelDirOk : Bool := true

/-- One `next(data_iter)` with the recovery of lines 93-97: `n` is the number
of batches a fresh pass of the dataloader yields and `remaining` the batches
left on the current iterator.  Returns the remaining count after the call, or
`none` when the uncaught second `StopIteration` (line 97) escapes. -/
def nextBatch (n remaining : Nat) : Option Nat :=
  match remaining with
  | r + 1 => some r
  | 0 =>
    match n with
    | m + 1 => some m
    | 0 => none

/-- The inner training loop of epoch `i` (lines 92-103): `steps` steps remain,
the next step index is `s`, and `remaining` batches are left on the current
iterator.  Returns the `trainStep` events performed and whether all steps
obtained a batch (`false` when a `StopIteration` escaped mid-loop). -/
def runTrainSteps (i n : Nat) : Nat → Nat → Nat → List Event × Bool
  | 0, _, _ => ([], true)
  | steps + 1, s, remaining =>
    match nextBatch n remaining with
    | none => ([], false)
    | some rem =>
      let t := runTrainSteps i n steps (s + 1) rem
      (Event.trainStep i s :: t.1, t.2)

/-- The `if i % config.test_every == 0` block (lines 119-134). -/
def testBlock (cfg : DreamerConfig) (w : World) (i total : Nat) : List Event :=
  if i % cfg.test_every == 0 then
    [Event.saveCheckpoint i (ckptName total),
     Event.testCollect i (w.testCollectSteps i), Event.logTest i]
  else []

/-- One iteration of the outer `for i in trange(1000)` loop (lines 84-134),
given the current `total_env_steps` and data-directory contents `files`.
Returns the epoch's events, whether it completed, and the updated
`total_env_steps` and directory contents. -/
def runEpoch (cfg : DreamerConfig) (w : World) (i total : Nat)
    (files : List String) : List Event × Bool × Nat × List String :=
  let hd := [Event.datasetConstruct i files, Event.iterCreate i]
  let ts := runTrainSteps i (w.numBatches i) cfg.training_steps 0
      (w.numBatches i)
  if ts.2 then
    let total' := total + w.collectSteps i
    (hd ++ ts.1 ++
      [Event.collectEpisode i (w.collectSteps i),
       Event.writeEpisode (episodeName i),
       Event.logTrain i (total' * cfg.action_repeats)] ++
      testBlock cfg w i total',
     true, total', files ++ [episodeName i])
  else (hd ++ ts.1, false, total, files)

/-- Runs `count` epochs starting at epoch index `start`; stops early when an
epoch fails (the uncaught `StopIteration` aborts the process). -/
def runEpochs (cfg : DreamerConfig) (w : World) :
    Nat → Nat → Nat → List String → List Event × Bool × Nat
  | 0, _, total, _ => ([], true, total)
  | count + 1, start, total, files =>
    let e := runEpoch cfg w start total files
    if e.2.1 then
      let rest := runEpochs cfg w count (start + 1) e.2.2.1 e.2.2.2
      (e.1 ++ rest.1, rest.2.1, rest.2.2)
    else (e.1, false, e.2.2.1)

/-- Prefill block, lines 76-81: executed only when `prefill_episodes > 0`;
writes one `pre_{i}.npz` per returned episode and overwrites
`total_env_steps` with the returned step count. -/
def prefillBlock (cfg : DreamerConfig) (w : World) : List Event × Nat :=
  if cfg.prefill_episodes > 0 then
    (Event.prefillCollect w.prefillCount w.prefillSteps ::
      (List.range w.prefillCount).map (fun j => Event.writeEpisode (preEpisodeName j)),
     w.prefillSteps)
  else ([], 0)

/-- Data-directory contents after the prefill block. -/
def prefillFiles (cfg : DreamerConfig) (w : World) : List String :=
  if cfg.prefill_episodes > 0 then (List.range w.prefillCount).map preEpisodeName
  else []

/-- The whole driver `main()` (lines 45-134): directory creation at config
construction, wandb/env/agent/collector setup, optional prefill, then 1000
training epochs.  Returns the event trace, whether the process completed
without an uncaught exception, and the final `total_env_steps`. -/
def run (cfg : DreamerConfig) (w : World) : List Event × Bool × Nat :=
  if !w.dataDirOk then ([], false, 0)
  else if !w.modelDirOk then ([Event.mkdirData], false, 0)
  else
    let pf := prefillBlock cfg w
    let hd := [Event.mkdirData, Event.mkdirModel, Event.wandbInit,
      Event.envCreate, Event.agentCreate, Event.collectorCreate true] ++
      pf.1 ++ [Event.collectorCreate false]
    let body := runEpochs cfg w 1000 0 pf.2 (prefillFiles cfg w)
    (hd ++ body.1, body.2.1, body.2.2)

/-! Closed forms of the successful run. -/

/-- The `trainStep` events of one fully successful inner loop: `steps` steps
starting at step index `s`. -/
def trainEvs (i : Nat) : Nat → Nat → List Event
  | 0, _ => []
  | steps + 1, s => Event.trainStep i s :: trainEvs i steps (s + 1)

/-- Sum of the env-step counts of the `count` train collect calls starting at
epoch `start`. -/
def sumSteps (w : World) : Nat → Nat → Nat
  | _, 0 => 0
  | start, count + 1 => w.collectSteps start + sumSteps w (start + 1) count

/-- Names of the episode files written in `count` epochs from `start` on. -/
def epochNames : Nat → Nat → List String
  | _, 0 => []
  | start, count + 1 => episodeName start :: epochNames (start + 1) count

/-- Trace of one successful epoch. -/
def epochTrace (cfg : DreamerConfig) (w : World) (i total : Nat)
    (files : List String) : List Event :=
  [Event.datasetConstruct i files, Event.iterCreate i] ++
    trainEvs i cfg.training_steps 0 ++
    [Event.collectEpisode i (w.collectSteps i),
     Event.writeEpisode (episodeName i),
     Event.logTrain i ((total + w.collectSteps i) * cfg.action_repeats)] ++
    testBlock cfg w i (total + w.collectSteps i)

/-- Trace of `count` successful epochs from `start` on. -/
def runTrace (cfg : DreamerConfig) (w : World) :
    Nat → Nat → Nat → List String → List Event
  | 0, _, _, _ => []
  | count + 1, start, total, files =>
    epochTrace cfg w start total files ++
      runTrace cfg w count (start + 1) (total + w.collectSteps start)
        (files ++ [episodeName start])

/-- Value of `total_env_steps` right after the prefill block. -/
def prefillTotal (cfg : DreamerConfig) (w : World) : Nat :=
  if cfg.prefill_episodes > 0 then w.prefillSteps else 0

/-- Startup events of the driver (lines 45-82), before the epoch loop. -/
def startEvents (cfg : DreamerConfig) (w : World) : List Event :=
  [Event.mkdirData, Event.mkdirModel, Event.wandbInit, Event.envCreate,
   Event.agentCreate, Event.collectorCreate true] ++
    (prefillBlock cfg w).1 ++ [Event.collectorCreate false]

/-- Value of `total_env_steps` after epoch `i`'s collect call. -/
def cumEnvSteps (cfg : DreamerConfig) (w : World) (i : Nat) : Nat :=
  prefillTotal cfg w + sumSteps w 0 (i + 1)

theorem nextBatch_pos (n r : Nat) (hn : 0 < n) : ∃ m, nextBatch n r = some m := by
  cases r with
  | zero =>
    cases n with
    | zero => omega
    | succ m => exact ⟨m, rfl⟩
  | succ r => exact ⟨r, rfl⟩

theorem runTrainSteps_success (i n : Nat) (hn : 0 < n) :
    ∀ steps s r, runTrainSteps i n steps s r = (trainEvs i steps s, true) := by
  intro steps
  induction steps with
  | zero => intro s r; rfl
  | succ k ih =>
    intro s r
    obtain ⟨m, hm⟩ := nextBatch_pos n r hn
    simp [runTrainSteps, hm, ih, trainEvs]

theorem runEpoch_success (cfg : DreamerConfig) (w : World) (i total : Nat)
    (files : List String) (hn : 0 < w.numBatches i) :
    runEpoch cfg w i total files =
      (epochTrace cfg w i total files, true, total + w.collectSteps i,
       files ++ [episodeName i]) := by
  unfold runEpoch
  rw [runTrainSteps_success i (w.numBatches i) hn]
  simp [epochTrace]

theorem runEpochs_success (cfg : DreamerConfig) (w : World)
    (hok : ∀ j, 0 < w.numBatches j) :
    ∀ count start total files,
      runEpochs cfg w count start total files =
        (runTrace cfg w count start total files, true,
         total + sumSteps w start count) := by
  intro count
  induction count with
  | zero => intro start total files; simp [runEpochs, runTrace, sumSteps]
  | succ c ih =>
    intro start total files
    simp only [runEpochs, runEpoch_success cfg w start total files (hok start),
      ih, runTrace, sumSteps]
    simp [Nat.add_assoc]

theorem run_success (cfg : DreamerConfig) (w : World)
    (hd : w.dataDirOk = true) (hm : w.modelDirOk = true)
    (hok : ∀ j, 0 < w.numBatches j) :
    run cfg w =
      (startEvents cfg w ++
        runTrace cfg w 1000 0 (prefillTotal cfg w) (prefillFiles cfg w),
       true, prefillTotal cfg w + sumSteps w 0 1000) := by
  have hpf : (prefillBlock cfg w).2 = prefillTotal cfg w := by
    unfold prefillBlock prefillTotal
    by_cases h : cfg.prefill_episodes > 0 <;> simp [h]
  unfold run
  rw [hd, hm]
  simp only [Bool.not_true, Bool.false_eq_true, if_false, ite_false]
  rw [runEpochs_success cfg w hok, hpf]
  simp [startEvents]

/-! Ordering and membership of events in a trace. -/

/-- Event `a` occurs strictly before event `b` somewhere in trace `t`. -/
def Precedes (t : List Event) (a b : Event) : Prop :=
  ∃ l1 l2 l3, t = l1 ++ (a :: (l2 ++ (b :: l3)))

theorem precedes_of_mem_append {xs ys : List Event} {a b : Event}
    (ha : a ∈ xs) (hb : b ∈ ys) : Precedes (xs ++ ys) a b := by
  obtain ⟨s1, t1, rfl⟩ := List.append_of_mem ha
  obtain ⟨s2, t2, rfl⟩ := List.append_of_mem hb
  exact ⟨s1, t1 ++ s2, t2, by simp⟩

theorem Precedes.append_left {t : List Event} {a b : Event} (xs : List Event)
    (h : Precedes t a b) : Precedes (xs ++ t) a b := by
  obtain ⟨l1, l2, l3, rfl⟩ := h
  exact ⟨xs ++ l1, l2, l3, by simp⟩

theorem Precedes.append_right {t : List Event} {a b : Event} (ys : List Event)
    (h : Precedes t a b) : Precedes (t ++ ys) a b := by
  obtain ⟨l1, l2, l3, rfl⟩ := h
  exact ⟨l1, l2, l3 ++ ys, by simp⟩

theorem sumSteps_peel (w : World) :
    ∀ count start, sumSteps w start (count + 1) =
      sumSteps w start count + w.collectSteps (start + count) := by
  intro count
  induction count with
  | zero => intro start; simp [sumSteps]
  | succ c ih =>
    intro start
    show w.collectSteps start + sumSteps w (start + 1) (c + 1) = _
    rw [ih (start + 1)]
    have h1 : start + 1 + c = start + (c + 1) := by omega
    rw [h1]
    show _ = w.collectSteps start + sumSteps w (start + 1) c +
      w.collectSteps (start + (c + 1))
    omega

theorem epochNames_peel :
    ∀ count start, epochNames start (count + 1) =
      epochNames start count ++ [episodeName (start + count)] := by
  intro count
  induction count with
  | zero => intro start; simp [epochNames]
  | succ c ih =>
    intro start
    show episodeName start :: epochNames (start + 1) (c + 1) = _
    rw [ih]
    simp [epochNames, Nat.add_assoc, Nat.add_comm 1 c]

theorem mem_trainEvs {i : Nat} {e : Event} :
    ∀ steps s, e ∈ trainEvs i steps s →
      ∃ k, e = Event.trainStep i k ∧ s ≤ k ∧ k < s + steps := by
  intro steps
  induction steps with
  | zero => intro s h; simp [trainEvs] at h
  | succ c ih =>
    intro s h
    simp only [trainEvs, List.mem_cons] at h
    rcases h with rfl | h
    · exact ⟨s, rfl, Nat.le_refl s, by omega⟩
    · obtain ⟨k, hk, hks, hlt⟩ := ih (s + 1) h
      exact ⟨k, hk, by omega, by omega⟩

theorem trainEvs_length (i : Nat) :
    ∀ steps s, (trainEvs i steps s).length = steps := by
  intro steps
  induction steps with
  | zero => intro s; rfl
  | succ c ih => intro s; simp [trainEvs, ih]

/-- Membership in the successful-run trace decomposes by epoch. -/
theorem mem_runTrace (cfg : DreamerConfig) (w : World) (e : Event) :
    ∀ count start total files,
      (e ∈ runTrace cfg w count start total files ↔
        ∃ k, k < count ∧
          e ∈ epochTrace cfg w (start + k) (total + sumSteps w start k)
              (files ++ epochNames start k)) := by
  intro count
  induction count with
  | zero => intro start total files; simp [runTrace]
  | succ c ih =>
    intro start total files
    simp only [runTrace, List.mem_append, ih]
    constructor
    · rintro (h | ⟨k, hk, h⟩)
      · exact ⟨0, Nat.succ_pos c, by simpa [sumSteps, epochNames] using h⟩
      · refine ⟨k + 1, by omega, ?_⟩
        have h1 : start + 1 + k = start + (k + 1) := by omega
        simpa [sumSteps, epochNames, h1, Nat.add_assoc] using h
    · rintro ⟨k, hk, h⟩
      cases k with
      | zero => exact Or.inl (by simpa [sumSteps, epochNames] using h)
      | succ k =>
        refine Or.inr ⟨k, by omega, ?_⟩
        have h1 : start + 1 + k = start + (k + 1) := by omega
        simpa [sumSteps, epochNames, h1, Nat.add_assoc] using h

/-- An event of epoch `k` precedes an event of epoch `k + 1` in the trace. -/
theorem precedes_runTrace_succ (cfg : DreamerConfig) (w : World) {a b : Event} :
    ∀ k count start total files, k + 1 < count →
      a ∈ epochTrace cfg w (start + k) (total + sumSteps w start k)
          (files ++ epochNames start k) →
      b ∈ epochTrace cfg w (start + (k + 1)) (total + sumSteps w start (k + 1))
          (files ++ epochNames start (k + 1)) →
      Precedes (runTrace cfg w count start total files) a b := by
  intro k
  induction k with
  | zero =>
    intro count start total files hc ha hb
    obtain ⟨c, rfl⟩ : ∃ c, count = c + 2 := ⟨count - 2, by omega⟩
    show Precedes (epochTrace cfg w start total files ++
      (epochTrace cfg w (start + 1) (total + w.collectSteps start)
          (files ++ [episodeName start]) ++
        runTrace cfg w c (start + 2)
          (total + w.collectSteps start + w.collectSteps (start + 1))
          (files ++ [episodeName start] ++ [episodeName (start + 1)]))) a b
    have ha0 : a ∈ epochTrace cfg w start total files := by
      simpa [sumSteps, epochNames] using ha
    have hb0 : b ∈ epochTrace cfg w (start + 1) (total + w.collectSteps start)
        (files ++ [episodeName start]) := by
      simpa [sumSteps, epochNames] using hb
    exact precedes_of_mem_append ha0 (List.mem_append_left _ hb0)
  | succ k ih =>
    intro count start total files hc ha hb
    obtain ⟨c, rfl⟩ : ∃ c, count = c + 1 := ⟨count - 1, by omega⟩
    show Precedes (epochTrace cfg w start total files ++
      runTrace cfg w c (start + 1) (total + w.collectSteps start)
        (files ++ [episodeName start])) a b
    have h1 : ∀ m, start + 1 + m = start + (m + 1) := by omega
    refine Precedes.append_left _ (ih c (start + 1)
      (total + w.collectSteps start) (files ++ [episodeName start])
      (by omega) ?_ ?_)
    · simpa [sumSteps, epochNames, h1, Nat.add_assoc] using ha
    · simpa [sumSteps, epochNames, h1, Nat.add_assoc] using hb

/-! Decimal rendering of naturals: `Nat.repr` is injective and starts with a
digit character, so the episode and checkpoint filename schemes are
collision-free. -/

/-- Big-endian decimal digit characters of `n` (reference renderer). -/
def decDigits (n : Nat) : List Char :=
  if _h : n < 10 then [Nat.digitChar n]
  else decDigits (n / 10) ++ [Nat.digitChar (n % 10)]
decreasing_by exact Nat.div_lt_self (by omega) (by omega)

/-- Numeric value of a decimal digit character. -/
def decVal (c : Char) : Nat := c.toNat - 48

theorem decVal_digitChar {d : Nat} (_h : d < 10) :
    decVal (Nat.digitChar d) = d := by
  interval_cases d <;> decide

theorem digitChar_ne_p {d : Nat} (_h : d < 10) : Nat.digitChar d ≠ 'p' := by
  interval_cases d <;> decide

theorem toDigitsCore_eq : ∀ fuel n ds, n < fuel →
    Nat.toDigitsCore 10 fuel n ds = decDigits n ++ ds := by
  intro fuel
  induction fuel with
  | zero => intro n ds h; omega
  | succ f ih =>
    intro n ds h
    rw [Nat.toDigitsCore]
    by_cases h10 : n / 10 = 0
    · have hn : n < 10 := by omega
      rw [decDigits, dif_pos hn]
      simp [h10, Nat.mod_eq_of_lt hn]
    · have hn : ¬n < 10 := by omega
      simp only [h10, if_false]
      rw [ih (n / 10) _ (by omega)]
      conv_rhs => rw [decDigits]
      rw [dif_neg hn]
      simp

theorem repr_eq_decDigits (n : Nat) : Nat.repr n = (decDigits n).asString := by
  show (Nat.toDigits 10 n).asString = _
  rw [Nat.toDigits, toDigitsCore_eq (n + 1) n [] (Nat.lt_succ_self n)]
  simp

theorem decDigits_decode (n : Nat) :
    ∀ a, List.foldl (fun acc c => acc * 10 + decVal c) a (decDigits n) =
      a * 10 ^ (decDigits n).length + n := by
  induction n using Nat.strong_induction_on with
  | _ n ih =>
    intro a
    by_cases h : n < 10
    · rw [decDigits, dif_pos h]
      simp [decVal_digitChar h]
    · rw [decDigits, dif_neg h, List.foldl_append,
        ih (n / 10) (Nat.div_lt_self (by omega) (by omega)) a]
      have hmod : decVal (Nat.digitChar (n % 10)) = n % 10 :=
        decVal_digitChar (Nat.mod_lt n (by omega))
      simp only [List.foldl_cons, List.foldl_nil, hmod, List.length_append,
        List.length_cons, List.length_nil, Nat.zero_add]
      have hdm : n / 10 * 10 + n % 10 = n := by omega
      calc (a * 10 ^ (decDigits (n / 10)).length + n / 10) * 10 + n % 10
          = a * (10 ^ (decDigits (n / 10)).length * 10) +
            (n / 10 * 10 + n % 10) := by ring
        _ = a * 10 ^ ((decDigits (n / 10)).length + 1) + n := by rw [hdm]; ring

theorem decDigits_injective : Function.Injective decDigits := by
  intro m n h
  have hm := decDigits_decode m 0
  have hn := decDigits_decode n 0
  rw [h] at hm
  simp only [Nat.zero_mul, Nat.zero_add] at hm hn
  omega

theorem repr_injective : Function.Injective Nat.repr := by
  intro m n h
  rw [repr_eq_decDigits, repr_eq_decDigits] at h
  exact decDigits_injective (congrArg String.data h)

theorem decDigits_head (n : Nat) :
    ∃ d t, d < 10 ∧ decDigits n = Nat.digitChar d :: t := by
  induction n using Nat.strong_induction_on with
  | _ n ih =>
    by_cases h : n < 10
    · exact ⟨n, [], h, by rw [decDigits, dif_pos h]⟩
    · obtain ⟨d, t, hd, ht⟩ := ih (n / 10) (Nat.div_lt_self (by omega) (by omega))
      exact ⟨d, t ++ [Nat.digitChar (n % 10)], hd, by
        rw [decDigits, dif_neg h, ht]; simp⟩

theorem string_data_append (s t : String) : (s ++ t).data = s.data ++ t.data := rfl

theorem toString_nat_data (n : Nat) : (toString n : String).data = decDigits n := by
  show (Nat.repr n).data = decDigits n
  rw [repr_eq_decDigits]
  rfl

/-- The two episode-filename schemes never collide: a prefill name starts
with the letter p, a regular name with a decimal digit. -/
theorem preEpisodeName_ne_episodeName (i j : Nat) :
    preEpisodeName i ≠ episodeName j := by
  intro h
  have hd := congrArg String.data h
  rw [preEpisodeName, episodeName] at hd
  rw [string_data_append, string_data_append, string_data_append,
    toString_nat_data, toString_nat_data] at hd
  obtain ⟨d, t, hlt, ht⟩ := decDigits_head j
  rw [ht] at hd
  have : 'p' = Nat.digitChar d := by
    have := congrArg (fun l => l.head?) hd
    simpa using this
  exact digitChar_ne_p hlt this.symm

theorem episodeName_injective : Function.Injective episodeName := by
  intro i j h
  have hd := congrArg String.data h
  rw [episodeName, episodeName, string_data_append, string_data_append,
    toString_nat_data, toString_nat_data] at hd
  exact decDigits_injective (List.append_cancel_right hd)

theorem preEpisodeName_injective : Function.Injective preEpisodeName := by
  intro i j h
  have hd := congrArg String.data h
  rw [preEpisodeName, preEpisodeName, string_data_append, string_data_append,
    string_data_append, string_data_append, toString_nat_data,
    toString_nat_data] at hd
  have h2 := List.append_cancel_right hd
  exact decDigits_injective (List.append_cancel_left h2)

theorem ckptName_injective : Function.Injective ckptName := by
  intro i j h
  have hd := congrArg String.data h
  rw [ckptName, ckptName, string_data_append, string_data_append,
    toString_nat_data, toString_nat_data] at hd
  exact decDigits_injective (List.append_cancel_right hd)

theorem trainStep_mem_trainEvs (i : Nat) :
    ∀ steps s k, s ≤ k → k < s + steps →
      Event.trainStep i k ∈ trainEvs i steps s := by
  intro steps
  induction steps with
  | zero => intro s k h1 h2; omega
  | succ c ih =>
    intro s k h1 h2
    simp only [trainEvs, List.mem_cons]
    rcases Nat.eq_or_lt_of_le h1 with rfl | hlt
    · exact Or.inl rfl
    · exact Or.inr (ih (s + 1) k hlt (by omega))

theorem mem_trainEvs_iff {i : Nat} {e : Event} (steps : Nat) :
    e ∈ trainEvs i steps 0 ↔ ∃ k, k < steps ∧ e = Event.trainStep i k := by
  constructor
  · intro h
    obtain ⟨k, hk, _, h2⟩ := mem_trainEvs steps 0 h
    exact ⟨k, by omega, hk⟩
  · rintro ⟨k, hk, rfl⟩
    exact trainStep_mem_trainEvs i steps 0 k (Nat.zero_le k) (by omega)

/-- Exactly which events one successful epoch contains. -/
theorem mem_epochTrace_iff (cfg : DreamerConfig) (w : World)
    (j total : Nat) (files : List String) (e : Event) :
    e ∈ epochTrace cfg w j total files ↔
      (e = Event.datasetConstruct j files ∨ e = Event.iterCreate j ∨
       e ∈ trainEvs j cfg.training_steps 0 ∨
       e = Event.collectEpisode j (w.collectSteps j) ∨
       e = Event.writeEpisode (episodeName j) ∨
       e = Event.logTrain j ((total + w.collectSteps j) * cfg.action_repeats) ∨
       (j % cfg.test_every = 0 ∧
        (e = Event.saveCheckpoint j (ckptName (total + w.collectSteps j)) ∨
         e = Event.testCollect j (w.testCollectSteps j) ∨
         e = Event.logTest j))) := by
  by_cases hte : j % cfg.test_every = 0
  · simp only [epochTrace, testBlock, hte, List.mem_append, List.mem_cons,
      List.not_mem_nil, or_false, true_and]
    simp only [beq_self_eq_true, if_true, List.mem_cons,
      List.not_mem_nil, or_false]
    tauto
  · have hb : (j % cfg.test_every == 0) = false := by
      simpa using hte
    simp only [epochTrace, testBlock, hte, List.mem_append, List.mem_cons,
      List.not_mem_nil, or_false, false_and]
    simp only [hb, if_false, List.not_mem_nil, or_false]
    tauto

/-- Membership in the trace of a successful run, by epoch. -/
theorem mem_run_iff (cfg : DreamerConfig) (w : World)
    (hd : w.dataDirOk = true) (hm : w.modelDirOk = true)
    (hok : ∀ j, 0 < w.numBatches j) (e : Event) :
    e ∈ (run cfg w).1 ↔
      e ∈ startEvents cfg w ∨
        ∃ k, k < 1000 ∧
          e ∈ epochTrace cfg w k (prefillTotal cfg w + sumSteps w 0 k)
              (prefillFiles cfg w ++ epochNames 0 k) := by
  rw [run_success cfg w hd hm hok]
  simp only [List.mem_append, mem_runTrace, Nat.zero_add]

theorem mem_startEvents_cases {cfg : DreamerConfig} {w : World} {e : Event}
    (h : e ∈ startEvents cfg w) :
    e = Event.mkdirData ∨ e = Event.mkdirModel ∨ e = Event.wandbInit ∨
      e = Event.envCreate ∨ e = Event.agentCreate ∨
      (∃ b, e = Event.collectorCreate b) ∨
      e = Event.prefillCollect w.prefillCount w.prefillSteps ∨
      ∃ j, j < w.prefillCount ∧ e = Event.writeEpisode (preEpisodeName j) := by
  unfold startEvents prefillBlock at h
  by_cases hp : cfg.prefill_episodes > 0 <;>
    simp only [hp, if_true, if_false, List.mem_append, List.mem_cons,
      List.mem_map, List.mem_range, List.not_mem_nil, or_false] at h <;>
    aesop

theorem saveCheckpoint_not_mem_startEvents (cfg : DreamerConfig) (w : World)
    (i : Nat) (name : String) :
    Event.saveCheckpoint i name ∉ startEvents cfg w := by
  intro h
  rcases mem_startEvents_cases h with h | h | h | h | h | ⟨b, h⟩ | h |
    ⟨j, _, h⟩ <;> simp at h

theorem testCollect_not_mem_startEvents (cfg : DreamerConfig) (w : World)
    (i v : Nat) : Event.testCollect i v ∉ startEvents cfg w := by
  intro h
  rcases mem_startEvents_cases h with h | h | h | h | h | ⟨b, h⟩ | h |
    ⟨j, _, h⟩ <;> simp at h

theorem logTrain_not_mem_startEvents (cfg : DreamerConfig) (w : World)
    (i v : Nat) : Event.logTrain i v ∉ startEvents cfg w := by
  intro h
  rcases mem_startEvents_cases h with h | h | h | h | h | ⟨b, h⟩ | h |
    ⟨j, _, h⟩ <;> simp at h

/-! Failure path: an epoch whose dataloader yields no batches. -/

theorem runTrainSteps_noBatches (i : Nat) : ∀ steps s, 0 < steps →
    runTrainSteps i 0 steps s 0 = ([], false) := by
  intro steps s h
  obtain ⟨t, rfl⟩ : ∃ t, steps = t + 1 := ⟨steps - 1, by omega⟩
  rfl

theorem runEpoch_noBatches (cfg : DreamerConfig) (w : World) (i total : Nat)
    (files : List String) (hn : w.numBatches i = 0)
    (ht : 0 < cfg.training_steps) :
    runEpoch cfg w i total files =
      ([Event.datasetConstruct i files, Event.iterCreate i], false, total,
       files) := by
  unfold runEpoch
  rw [hn, runTrainSteps_noBatches i cfg.training_steps 0 ht]
  simp

theorem runEpochs_fail_head (cfg : DreamerConfig) (w : World)
    (count start total : Nat) (files : List String)
    (hn : w.numBatches start = 0) (ht : 0 < cfg.training_steps)
    (hc : 0 < count) :
    runEpochs cfg w count start total files =
      ([Event.datasetConstruct start files, Event.iterCreate start], false,
       total) := by
  obtain ⟨c, rfl⟩ : ∃ c, count = c + 1 := ⟨count - 1, by omega⟩
  simp only [runEpochs, runEpoch_noBatches cfg w start total files hn ht]
  simp

theorem run_firstEpochNoBatches (cfg : DreamerConfig) (w : World)
    (hd : w.dataDirOk = true) (hm : w.modelDirOk = true)
    (hn : w.numBatches 0 = 0) (ht : 0 < cfg.training_steps) :
    (run cfg w).2.1 = false := by
  unfold run
  rw [hd, hm]
  simp only [Bool.not_true, Bool.false_eq_true, if_false,
    runEpochs_fail_head cfg w 1000 0 (prefillBlock cfg w).2
      (prefillFiles cfg w) hn ht (by omega)]

/-! Lifting ordering facts from one epoch into the whole run trace. -/

theorem precedes_runTrace_of_epoch (cfg : DreamerConfig) (w : World)
    {a b : Event} :
    ∀ k count start total files, k < count →
      Precedes (epochTrace cfg w (start + k) (total + sumSteps w start k)
        (files ++ epochNames start k)) a b →
      Precedes (runTrace cfg w count start total files) a b := by
  intro k
  induction k with
  | zero =>
    intro count start total files hc hp
    obtain ⟨c, rfl⟩ : ∃ c, count = c + 1 := ⟨count - 1, by omega⟩
    show Precedes (epochTrace cfg w start total files ++ _) a b
    refine Precedes.append_right _ ?_
    simpa [sumSteps, epochNames] using hp
  | succ k ih =>
    intro count start total files hc hp
    obtain ⟨c, rfl⟩ : ∃ c, count = c + 1 := ⟨count - 1, by omega⟩
    show Precedes (epochTrace cfg w start total files ++
      runTrace cfg w c (start + 1) (total + w.collectSteps start)
        (files ++ [episodeName start])) a b
    have h1 : ∀ m, start + 1 + m = start + (m + 1) := by omega
    refine Precedes.append_left _ (ih c (start + 1)
      (total + w.collectSteps start) (files ++ [episodeName start])
      (by omega) ?_)
    simpa [sumSteps, epochNames, h1, Nat.add_assoc] using hp

theorem precedes_testBlock (cfg : DreamerConfig) (w : World) (i total : Nat)
    (files : List String) (hte : i % cfg.test_every = 0) :
    Precedes (epochTrace cfg w i total files)
      (Event.saveCheckpoint i (ckptName (total + w.collectSteps i)))
      (Event.testCollect i (w.testCollectSteps i)) := by
  refine ⟨[Event.datasetConstruct i files, Event.iterCreate i] ++
    trainEvs i cfg.training_steps 0 ++
    [Event.collectEpisode i (w.collectSteps i),
     Event.writeEpisode (episodeName i),
     Event.logTrain i ((total + w.collectSteps i) * cfg.action_repeats)],
    [], [Event.logTest i], ?_⟩
  simp [epochTrace, testBlock, hte]

/-! Forward characterization of selected events in a successful run. -/

theorem saveCheckpoint_mem_run (cfg : DreamerConfig) (w : World)
    (hd : w.dataDirOk = true) (hm : w.modelDirOk = true)
    (hok : ∀ j, 0 < w.numBatches j) {i : Nat} {name : String}
    (h : Event.saveCheckpoint i name ∈ (run cfg w).1) :
    i < 1000 ∧ i % cfg.test_every = 0 ∧
      name = ckptName (cumEnvSteps cfg w i) := by
  rw [mem_run_iff cfg w hd hm hok] at h
  rcases h with h | ⟨k, hk, h⟩
  · exact absurd h (saveCheckpoint_not_mem_startEvents cfg w i name)
  · rw [mem_epochTrace_iff] at h
    rcases h with h | h | h | h | h | h | ⟨hte, h | h | h⟩
    · simp at h
    · simp at h
    · obtain ⟨k2, hk2, _, _⟩ := mem_trainEvs cfg.training_steps 0 h
      simp at hk2
    · simp at h
    · simp at h
    · simp at h
    · rw [Event.saveCheckpoint.injEq] at h
      obtain ⟨rfl, rfl⟩ := h
      refine ⟨hk, hte, ?_⟩
      rw [cumEnvSteps, sumSteps_peel]
      simp [Nat.add_assoc]
    · simp at h
    · simp at h

theorem testCollect_mem_run (cfg : DreamerConfig) (w : World)
    (hd : w.dataDirOk = true) (hm : w.modelDirOk = true)
    (hok : ∀ j, 0 < w.numBatches j) {i v : Nat}
    (h : Event.testCollect i v ∈ (run cfg w).1) :
    i < 1000 ∧ i % cfg.test_every = 0 ∧ v = w.testCollectSteps i := by
  rw [mem_run_iff cfg w hd hm hok] at h
  rcases h with h | ⟨k, hk, h⟩
  · exact absurd h (testCollect_not_mem_startEvents cfg w i v)
  · rw [mem_epochTrace_iff] at h
    rcases h with h | h | h | h | h | h | ⟨hte, h | h | h⟩
    · simp at h
    · simp at h
    · obtain ⟨k2, hk2, _, _⟩ := mem_trainEvs cfg.training_steps 0 h
      simp at hk2
    · simp at h
    · simp at h
    · simp at h
    · simp at h
    · rw [Event.testCollect.injEq] at h
      obtain ⟨rfl, rfl⟩ := h
      exact ⟨hk, hte, rfl⟩
    · simp at h

theorem logTrain_mem_run (cfg : DreamerConfig) (w : World)
    (hd : w.dataDirOk = true) (hm : w.modelDirOk = true)
    (hok : ∀ j, 0 < w.numBatches j) {i v : Nat}
    (h : Event.logTrain i v ∈ (run cfg w).1) :
    i < 1000 ∧ v = cumEnvSteps cfg w i * cfg.action_repeats := by
  rw [mem_run_iff cfg w hd hm hok] at h
  rcases h with h | ⟨k, hk, h⟩
  · exact absurd h (logTrain_not_mem_startEvents cfg w i v)
  · rw [mem_epochTrace_iff] at h
    rcases h with h | h | h | h | h | h | ⟨hte, h | h | h⟩
    · simp at h
    · simp at h
    · obtain ⟨k2, hk2, _, _⟩ := mem_trainEvs cfg.training_steps 0 h
      simp at hk2
    · simp at h
    · simp at h
    · rw [Event.logTrain.injEq] at h
      obtain ⟨rfl, rfl⟩ := h
      refine ⟨hk, ?_⟩
      rw [cumEnvSteps, sumSteps_peel]
      simp [Nat.add_assoc]
    · simp at h
    · simp at h
    · simp at h

/-! Counting optimization steps and collect calls. -/

/-- Recognizes one optimization step (`dreamer.update`, line 103). -/
def isTrainStep : Event → Bool
  | Event.trainStep _ _ => true
  | _ => false

/-- Recognizes one train-collector episode collection (line 107). -/
def isCollect : Event → Bool
  | Event.collectEpisode _ _ => true
  | _ => false

/-- Number of optimization steps performed along a trace. -/
def countTrainSteps (t : List Event) : Nat := t.countP isTrainStep

/-- Number of training-episode collections performed along a trace. -/
def countCollects (t : List Event) : Nat := t.countP isCollect

theorem runTrainSteps_length_le (i n : Nat) :
    ∀ steps s r, (runTrainSteps i n steps s r).1.length ≤ steps := by
  intro steps
  induction steps with
  | zero => intro s r; simp [runTrainSteps]
  | succ c ih =>
    intro s r
    cases hnb : nextBatch n r with
    | none => simp [runTrainSteps, hnb]
    | some m =>
      simpa [runTrainSteps, hnb] using Nat.succ_le_succ (ih (s + 1) m)

theorem countTrainSteps_runEpoch_le (cfg : DreamerConfig) (w : World)
    (i total : Nat) (files : List String) :
    countTrainSteps (runEpoch cfg w i total files).1 ≤ cfg.training_steps := by
  have hle : countTrainSteps
      (runTrainSteps i (w.numBatches i) cfg.training_steps 0
        (w.numBatches i)).1 ≤ cfg.training_steps :=
    Nat.le_trans (List.countP_le_length _)
      (runTrainSteps_length_le i (w.numBatches i) cfg.training_steps 0
        (w.numBatches i))
  unfold runEpoch
  dsimp only
  split
  · simp only [countTrainSteps, List.countP_append, List.countP_cons,
      List.countP_nil, testBlock] at hle ⊢
    by_cases hte : i % cfg.test_every = 0 <;> simp [hte, isTrainStep] <;> omega
  · simp only [countTrainSteps, List.countP_append, List.countP_cons,
      List.countP_nil] at hle ⊢
    simp [isTrainStep]
    omega

theorem runTrainSteps_events (i n : Nat) :
    ∀ steps s r e, e ∈ (runTrainSteps i n steps s r).1 →
      ∃ k, e = Event.trainStep i k := by
  intro steps
  induction steps with
  | zero => intro s r e h; simp [runTrainSteps] at h
  | succ c ih =>
    intro s r e h
    cases hnb : nextBatch n r with
    | none => simp [runTrainSteps, hnb] at h
    | some m =>
      simp only [runTrainSteps, hnb, List.mem_cons] at h
      rcases h with rfl | h
      · exact ⟨s, rfl⟩
      · exact ih (s + 1) m e h

theorem countCollects_runEpoch_le (cfg : DreamerConfig) (w : World)
    (i total : Nat) (files : List String) :
    countCollects (runEpoch cfg w i total files).1 ≤ 1 := by
  have hz : countCollects
      (runTrainSteps i (w.numBatches i) cfg.training_steps 0
        (w.numBatches i)).1 = 0 := by
    rw [countCollects, List.countP_eq_zero]
    intro e he
    obtain ⟨k, rfl⟩ := runTrainSteps_events i (w.numBatches i)
      cfg.training_steps 0 (w.numBatches i) e he
    simp [isCollect]
  unfold runEpoch
  dsimp only
  split
  · simp only [countCollects, List.countP_append, List.countP_cons,
      List.countP_nil, testBlock] at hz ⊢
    by_cases hte : i % cfg.test_every = 0 <;> simp [hte, isCollect, hz]
  · simp only [countCollects, List.countP_append, List.countP_cons,
      List.countP_nil] at hz ⊢
    simp [isCollect, hz]

theorem countTrainSteps_runEpochs_le (cfg : DreamerConfig) (w : World) :
    ∀ count start total files,
      countTrainSteps (runEpochs cfg w count start total files).1 ≤
        count * cfg.training_steps := by
  intro count
  induction count with
  | zero => intro start total files; simp [runEpochs, countTrainSteps]
  | succ c ih =>
    intro start total files
    have hep := countTrainSteps_runEpoch_le cfg w start total files
    simp only [runEpochs]
    split
    · simp only [countTrainSteps, List.countP_append] at hep ⊢
      have hrest := ih (start + 1) (runEpoch cfg w start total files).2.2.1
        (runEpoch cfg w start total files).2.2.2
      simp only [countTrainSteps] at hrest
      calc List.countP isTrainStep (runEpoch cfg w start total files).1 +
            List.countP isTrainStep (runEpochs cfg w c (start + 1)
              (runEpoch cfg w start total files).2.2.1
              (runEpoch cfg w start total files).2.2.2).1
          ≤ cfg.training_steps + c * cfg.training_steps :=
            Nat.add_le_add hep hrest
        _ = (c + 1) * cfg.training_steps := by ring
    · exact Nat.le_trans hep (Nat.le_mul_of_pos_left _ (by omega))

theorem countCollects_runEpochs_le (cfg : DreamerConfig) (w : World) :
    ∀ count start total files,
      countCollects (runEpochs cfg w count start total files).1 ≤ count := by
  intro count
  induction count with
  | zero => intro start total files; simp [runEpochs, countCollects]
  | succ c ih =>
    intro start total files
    have hep := countCollects_runEpoch_le cfg w start total files
    simp only [runEpochs]
    split
    · simp only [countCollects, List.countP_append] at hep ⊢
      have hrest := ih (start + 1) (runEpoch cfg w start total files).2.2.1
        (runEpoch cfg w start total files).2.2.2
      simp only [countCollects] at hrest
      omega
    · exact Nat.le_trans hep (by omega)

theorem countP_trainEvs (i : Nat) :
    ∀ steps s, (trainEvs i steps s).countP isTrainStep = steps := by
  intro steps
  induction steps with
  | zero => intro s; rfl
  | succ c ih =>
    intro s
    simp [trainEvs, List.countP_cons, ih, isTrainStep]

theorem countTrainSteps_epochTrace (cfg : DreamerConfig) (w : World)
    (i total : Nat) (files : List String) :
    countTrainSteps (epochTrace cfg w i total files) = cfg.training_steps := by
  simp only [countTrainSteps, epochTrace, testBlock, List.countP_append,
    List.countP_cons, List.countP_nil, countP_trainEvs]
  by_cases hte : i % cfg.test_every = 0 <;> simp [hte, isTrainStep]

theorem countCollects_epochTrace (cfg : DreamerConfig) (w : World)
    (i total : Nat) (files : List String) :
    countCollects (epochTrace cfg w i total files) = 1 := by
  have hz : (trainEvs i cfg.training_steps 0).countP isCollect = 0 := by
    rw [List.countP_eq_zero]
    intro e he
    obtain ⟨k, rfl, _, _⟩ := mem_trainEvs cfg.training_steps 0 he
    simp [isCollect]
  simp only [countCollects, epochTrace, testBlock, List.countP_append,
    List.countP_cons, List.countP_nil, hz]
  by_cases hte : i % cfg.test_every = 0 <;> simp [hte, isCollect]

theorem countTrainSteps_runTrace (cfg : DreamerConfig) (w : World) :
    ∀ count start total files,
      countTrainSteps (runTrace cfg w count start total files) =
        count * cfg.training_steps := by
  intro count
  induction count with
  | zero => intro start total files; simp [runTrace, countTrainSteps]
  | succ c ih =>
    intro start total files
    simp only [runTrace, countTrainSteps, List.countP_append]
    rw [show List.countP isTrainStep (epochTrace cfg w start total files) =
        countTrainSteps (epochTrace cfg w start total files) from rfl,
      countTrainSteps_epochTrace]
    rw [show List.countP isTrainStep (runTrace cfg w c (start + 1)
        (total + w.collectSteps start) (files ++ [episodeName start])) =
        countTrainSteps (runTrace cfg w c (start + 1)
          (total + w.collectSteps start) (files ++ [episodeName start]))
        from rfl, ih]
    ring

theorem countCollects_runTrace (cfg : DreamerConfig) (w : World) :
    ∀ count start total files,
      countCollects (runTrace cfg w count start total files) = count := by
  intro count
  induction count with
  | zero => intro start total files; simp [runTrace, countCollects]
  | succ c ih =>
    intro start total files
    simp only [runTrace, countCollects, List.countP_append]
    rw [show List.countP isCollect (epochTrace cfg w start total files) =
        countCollects (epochTrace cfg w start total files) from rfl,
      countCollects_epochTrace]
    rw [show List.countP isCollect (runTrace cfg w c (start + 1)
        (total + w.collectSteps start) (files ++ [episodeName start])) =
        countCollects (runTrace cfg w c (start + 1)
          (total + w.collectSteps start) (files ++ [episodeName start]))
        from rfl, ih]
    omega

theorem countTrainSteps_startEvents (cfg : DreamerConfig) (w : World) :
    countTrainSteps (startEvents cfg w) = 0 := by
  rw [countTrainSteps, List.countP_eq_zero]
  intro e he
  rcases mem_startEvents_cases he with h | h | h | h | h | ⟨b, h⟩ | h |
    ⟨j, _, h⟩ <;> subst h <;> simp [isTrainStep]

theorem countCollects_startEvents (cfg : DreamerConfig) (w : World) :
    countCollects (startEvents cfg w) = 0 := by
  rw [countCollects, List.countP_eq_zero]
  intro e he
  rcases mem_startEvents_cases he with h | h | h | h | h | ⟨b, h⟩ | h |
    ⟨j, _, h⟩ <;> subst h <;> simp [isCollect]

/-! Extracting the episode filenames written along a trace. -/

/-- The filename written by an episode-write event, if any. -/
def epWrite : Event → Option String
  | Event.writeEpisode name => some name
  | _ => none

/-- Names of the episode files written along a trace, in write order. -/
def writeNames (t : List Event) : List String := t.filterMap epWrite

theorem writeNames_append (t1 t2 : List Event) :
    writeNames (t1 ++ t2) = writeNames t1 ++ writeNames t2 :=
  List.filterMap_append t1 t2 epWrite

theorem writeNames_trainEvs (i : Nat) :
    ∀ steps s, writeNames (trainEvs i steps s) = [] := by
  intro steps
  induction steps with
  | zero => intro s; rfl
  | succ c ih =>
    intro s
    show writeNames (Event.trainStep i s :: trainEvs i c (s + 1)) = []
    rw [writeNames, List.filterMap_cons]
    have hrec := ih (s + 1)
    rw [writeNames] at hrec
    simp [epWrite, hrec]

theorem writeNames_epochTrace (cfg : DreamerConfig) (w : World)
    (i total : Nat) (files : List String) :
    writeNames (epochTrace cfg w i total files) = [episodeName i] := by
  have ht := writeNames_trainEvs i cfg.training_steps 0
  simp only [writeNames] at ht
  simp only [epochTrace, testBlock, writeNames, List.filterMap_append,
    List.filterMap_cons, List.filterMap_nil, epWrite, ht]
  by_cases hte : i % cfg.test_every = 0 <;> simp [hte, epWrite]

theorem writeNames_runTrace (cfg : DreamerConfig) (w : World) :
    ∀ count start total files,
      writeNames (runTrace cfg w count start total files) =
        epochNames start count := by
  intro count
  induction count with
  | zero => intro start total files; rfl
  | succ c ih =>
    intro start total files
    rw [runTrace, writeNames_append, writeNames_epochTrace, ih]
    rfl

theorem writeNames_map_writeEpisode (f : Nat → String) :
    ∀ l : List Nat,
      writeNames (l.map fun j => Event.writeEpisode (f j)) = l.map f := by
  intro l
  induction l with
  | nil => rfl
  | cons x xs ih => simp [writeNames, List.filterMap_cons, epWrite] at ih ⊢
                    exact ih

theorem writeNames_startEvents (cfg : DreamerConfig) (w : World) :
    writeNames (startEvents cfg w) = prefillFiles cfg w := by
  unfold startEvents prefillFiles prefillBlock
  by_cases hp : cfg.prefill_episodes > 0
  · have hm := writeNames_map_writeEpisode preEpisodeName
      (List.range w.prefillCount)
    simp only [writeNames] at hm
    simp [hp, writeNames, List.filterMap_append, List.filterMap_cons,
      epWrite, hm]
  · simp [hp, writeNames, List.filterMap_append, List.filterMap_cons, epWrite]

theorem epochNames_eq_map : ∀ count start,
    epochNames start count = (List.range' start count).map episodeName := by
  intro count
  induction count with
  | zero => intro start; rfl
  | succ c ih =>
    intro start
    rw [List.range'_succ]
    simp [epochNames, ih]

/-- The full list of episode filenames a successful run writes, in order. -/
theorem writeNames_run (cfg : DreamerConfig) (w : World)
    (hd : w.dataDirOk = true) (hm : w.modelDirOk = true)
    (hok : ∀ j, 0 < w.numBatches j) :
    writeNames (run cfg w).1 =
      prefillFiles cfg w ++ (List.range' 0 1000).map episodeName := by
  rw [run_success cfg w hd hm hok]
  rw [writeNames_append, writeNames_startEvents, writeNames_runTrace,
    epochNames_eq_map]

theorem nodup_writeNames_run (cfg : DreamerConfig) (w : World)
    (hd : w.dataDirOk = true) (hm : w.modelDirOk = true)
    (hok : ∀ j, 0 < w.numBatches j) :
    (writeNames (run cfg w).1).Nodup := by
  rw [writeNames_run cfg w hd hm hok]
  have hpre : (prefillFiles cfg w).Nodup := by
    unfold prefillFiles
    split
    · exact (List.nodup_range _).map preEpisodeName_injective
    · exact List.nodup_nil
  have hreg : ((List.range' 0 1000).map episodeName).Nodup :=
    (List.nodup_range' _ _).map episodeName_injective
  rw [List.nodup_append]
  refine ⟨hpre, hreg, ?_⟩
  intro a ha hb
  unfold prefillFiles at ha
  rcases Classical.em (cfg.prefill_episodes > 0) with hp | hp
  · rw [if_pos hp] at ha
    obtain ⟨j, _, rfl⟩ := List.mem_map.mp ha
    obtain ⟨k, _, hk⟩ := List.mem_map.mp hb
    exact preEpisodeName_ne_episodeName j k hk.symm
  · rw [if_neg hp] at ha
    exact absurd ha (List.not_mem_nil a)

/-! Remaining shared helpers. -/

theorem cumEnvSteps_eq (cfg : DreamerConfig) (w : World) (i : Nat) :
    cumEnvSteps cfg w i =
      prefillTotal cfg w + sumSteps w 0 i + w.collectSteps i := by
  rw [cumEnvSteps, sumSteps_peel]
  simp [Nat.add_assoc]

theorem nextBatch_exhausted {n : Nat} (hn : 0 < n) :
    nextBatch n 0 = some (n - 1) := by
  obtain ⟨m, rfl⟩ : ∃ m, n = m + 1 := ⟨n - 1, by omega⟩
  rfl

theorem prefillBlock_snd (cfg : DreamerConfig) (w : World) :
    (prefillBlock cfg w).2 = prefillTotal cfg w := by
  unfold prefillBlock prefillTotal
  by_cases h : cfg.prefill_episodes > 0 <;> simp [h]

/-- Shape of the run when both directory creations succeed (no assumption
on the dataloaders). -/
theorem run_dirsOk (cfg : DreamerConfig) (w : World)
    (hd : w.dataDirOk = true) (hm : w.modelDirOk = true) :
    run cfg w =
      (startEvents cfg w ++
        (runEpochs cfg w 1000 0 (prefillTotal cfg w)
          (prefillFiles cfg w)).1,
       (runEpochs cfg w 1000 0 (prefillTotal cfg w)
          (prefillFiles cfg w)).2.1,
       (runEpochs cfg w 1000 0 (prefillTotal cfg w)
          (prefillFiles cfg w)).2.2) := by
  unfold run
  rw [hd, hm]
  simp only [Bool.not_true, Bool.false_eq_true, if_false,
    prefillBlock_snd]
  simp [startEvents]

/-- Backward membership: the checkpoint and test-collect events of a test
epoch do occur in the successful run. -/
theorem mem_run_test_events (cfg : DreamerConfig) (w : World)
    (hd : w.dataDirOk = true) (hm : w.modelDirOk = true)
    (hok : ∀ j, 0 < w.numBatches j) (i : Nat) (hi : i < 1000)
    (hte : i % cfg.test_every = 0) :
    Event.saveCheckpoint i (ckptName (cumEnvSteps cfg w i)) ∈ (run cfg w).1 ∧
    Event.testCollect i (w.testCollectSteps i) ∈ (run cfg w).1 := by
  constructor <;>
    [refine (mem_run_iff cfg w hd hm hok _).mpr (Or.inr ⟨i, hi, ?_⟩);
     refine (mem_run_iff cfg w hd hm hok _).mpr (Or.inr ⟨i, hi, ?_⟩)] <;>
    rw [mem_epochTrace_iff] <;> simp [hte, cumEnvSteps_eq]

/-- Backward membership: the wandb env-steps log line of any epoch occurs in
the successful run. -/
theorem mem_run_logTrain (cfg : DreamerConfig) (w : World)
    (hd : w.dataDirOk = true) (hm : w.modelDirOk = true)
    (hok : ∀ j, 0 < w.numBatches j) (i : Nat) (hi : i < 1000) :
    Event.logTrain i (cumEnvSteps cfg w i * cfg.action_repeats) ∈
      (run cfg w).1 := by
  refine (mem_run_iff cfg w hd hm hok _).mpr (Or.inr ⟨i, hi, ?_⟩)
  rw [mem_epochTrace_iff, cumEnvSteps_eq]
  simp

theorem sumSteps_congr {w1 w2 : World}
    (h : w1.collectSteps = w2.collectSteps) :
    ∀ count start, sumSteps w1 start count = sumSteps w2 start count := by
  intro count
  induction count with
  | zero => intro start; rfl
  | succ c ih => intro start; simp [sumSteps, h, ih]

/-! Concrete environments used as witnesses and counterexamples. -/

/-- A benign environment: every dataloader pass yields three batches, epoch
i's train collect returns i + 2 env steps, the test collect returns 11,
the prefill collect returns two episodes and nine env steps. -/
def wGood : World :=
  { prefillCount := 2, prefillSteps := 9, collectSteps := fun i => i + 2,
    numBatches := fun _ => 3, testCollectSteps := fun _ => 11 }

/-- An environment whose trajectory store never yields a batch (the empty
data directory of a fresh run under the default `prefill_episodes = 0`). -/
def wEmptyStore : World :=
  { prefillCount := 0, prefillSteps := 0, collectSteps := fun _ => 5,
    numBatches := fun _ => 0 }

/-- A second empty-store environment (different collect counts). -/
def wEmptyStore2 : World :=
  { prefillCount := 0, prefillSteps := 0, collectSteps := fun _ => 7,
    numBatches := fun _ => 0 }

/-- An environment where creating the data directory fails at startup. -/
def wNoDataDir : World :=
  { prefillCount := 0, prefillSteps := 0, collectSteps := fun _ => 1,
    numBatches := fun _ => 1, dataDirOk := false }

/-- An environment where creating the model directory fails at startup. -/
def wNoModelDir : World :=
  { prefillCount := 0, prefillSteps := 0, collectSteps := fun _ => 1,
    numBatches := fun _ => 1, modelDirOk := false }

/-! Claim C1. -/

/-- C1 is false as stated: with the default configuration (no prefill) and an
initially empty trajectory store, the dataloader of the very first epoch
yields no batch, the restarted iterator raises StopIteration again, and the
training loop fails instead of every step obtaining a batch — the run aborts
with zero completed training steps. -/
theorem c1_counterexample :
    (run defaultConfig wEmptyStore).2.1 = false ∧
    countTrainSteps (run defaultConfig wEmptyStore).1 = 0 := ⟨rfl, rfl⟩

/-- C1 (amended): whenever drawing the next batch raises StopIteration, the
driver restarts iteration with a fresh iterator over the dataloader and takes
the next batch from it; provided every fresh dataloader pass yields at least
one batch, this recovery always succeeds: the run completes and every one of
the `training_steps` steps of every epoch obtains a batch. -/
theorem c1_stop_iteration_recovery (cfg : DreamerConfig) (w : World)
    (hd : w.dataDirOk = true) (hm : w.modelDirOk = true)
    (hok : ∀ j, 0 < w.numBatches j) :
    (run cfg w).2.1 = true ∧
    (∀ i, nextBatch (w.numBatches i) 0 = some (w.numBatches i - 1)) ∧
    (∀ i r, runTrainSteps i (w.numBatches i) cfg.training_steps 0 r =
      (trainEvs i cfg.training_steps 0, true)) ∧
    ∀ i, (trainEvs i cfg.training_steps 0).length = cfg.training_steps := by
  refine ⟨?_, fun i => nextBatch_exhausted (hok i), fun i r =>
    runTrainSteps_success i (w.numBatches i) (hok i) cfg.training_steps 0 r,
    fun i => trainEvs_length i cfg.training_steps 0⟩
  rw [run_success cfg w hd hm hok]

/-- Witness for `c1_stop_iteration_recovery` at a concrete environment. -/
theorem c1_stop_iteration_recovery_witness :
    wGood.dataDirOk = true ∧ wGood.modelDirOk = true ∧
    (∀ j, 0 < wGood.numBatches j) ∧
    ((run defaultConfig wGood).2.1 = true ∧
     (∀ i, nextBatch (wGood.numBatches i) 0 =
        some (wGood.numBatches i - 1)) ∧
     (∀ i r, runTrainSteps i (wGood.numBatches i)
        defaultConfig.training_steps 0 r =
        (trainEvs i defaultConfig.training_steps 0, true)) ∧
     ∀ i, (trainEvs i defaultConfig.training_steps 0).length =
        defaultConfig.training_steps) :=
  ⟨rfl, rfl, fun _ => by simp [wGood],
   c1_stop_iteration_recovery defaultConfig wGood rfl rfl
     (fun _ => by simp [wGood])⟩

/-! Claim C2. -/

/-- C2 (confirmed): if the trajectory store yields no batches when the first
epoch's dataloader is iterated, the StopIteration recovery path itself calls
next on a freshly created but still-empty iterator (`nextBatch` returns
`none`), and the resulting StopIteration propagates uncaught out of the
training loop: the run aborts. -/
theorem c2_empty_store_uncaught (cfg : DreamerConfig) (w : World)
    (hd : w.dataDirOk = true) (hm : w.modelDirOk = true)
    (hn : w.numBatches 0 = 0) (ht : 0 < cfg.training_steps) :
    nextBatch (w.numBatches 0) 0 = none ∧ (run cfg w).2.1 = false :=
  ⟨by rw [hn]; rfl, run_firstEpochNoBatches cfg w hd hm hn ht⟩

/-- Witness for `c2_empty_store_uncaught` at the default configuration and
an empty store. -/
theorem c2_empty_store_uncaught_witness :
    wEmptyStore.dataDirOk = true ∧ wEmptyStore.modelDirOk = true ∧
    wEmptyStore.numBatches 0 = 0 ∧ 0 < defaultConfig.training_steps ∧
    (nextBatch (wEmptyStore.numBatches 0) 0 = none ∧
     (run defaultConfig wEmptyStore).2.1 = false) :=
  ⟨rfl, rfl, rfl, by decide,
   c2_empty_store_uncaught defaultConfig wEmptyStore rfl rfl rfl (by decide)⟩

/-! Claim C3. -/

/-- C3 (confirmed): for every epoch i + 1 of the outer loop, the
TrajectoryDataset constructed at its start is created after the episode file
of epoch i was written, and that episode's filename is part of the file set
the new dataset is built over. -/
theorem c3_dataset_rescan_each_epoch (cfg : DreamerConfig) (w : World)
    (hd : w.dataDirOk = true) (hm : w.modelDirOk = true)
    (hok : ∀ j, 0 < w.numBatches j) (i : Nat) (hi : i + 1 < 1000) :
    ∃ files, episodeName i ∈ files ∧
      Precedes (run cfg w).1 (Event.writeEpisode (episodeName i))
        (Event.datasetConstruct (i + 1) files) := by
  refine ⟨prefillFiles cfg w ++ epochNames 0 (i + 1), ?_, ?_⟩
  · rw [epochNames_peel]
    simp
  · rw [run_success cfg w hd hm hok]
    refine Precedes.append_left _ ?_
    refine precedes_runTrace_succ cfg w i 1000 0 (prefillTotal cfg w)
      (prefillFiles cfg w) hi ?_ ?_
    · rw [mem_epochTrace_iff]
      simp
    · rw [mem_epochTrace_iff]
      simp

/-- Witness for `c3_dataset_rescan_each_epoch` at epoch 0 of a concrete
environment. -/
theorem c3_dataset_rescan_each_epoch_witness :
    wGood.dataDirOk = true ∧ wGood.modelDirOk = true ∧
    (∀ j, 0 < wGood.numBatches j) ∧ 0 + 1 < 1000 ∧
    ∃ files, episodeName 0 ∈ files ∧
      Precedes (run defaultConfig wGood).1
        (Event.writeEpisode (episodeName 0))
        (Event.datasetConstruct (0 + 1) files) :=
  ⟨rfl, rfl, fun _ => by simp [wGood], by decide,
   c3_dataset_rescan_each_epoch defaultConfig wGood rfl rfl
     (fun _ => by simp [wGood]) 0 (by decide)⟩

/-! Claim C4. -/

/-- C4 (confirmed): every checkpoint save event of a successful run writes
exactly one blob whose filename is the cumulative environment-step count at
the time of the save: it equals `ckptName (cumEnvSteps cfg w i)`, i.e.
`f"{total_env_steps}.pt"` with `total_env_steps` as of epoch i's collect. -/
theorem c4_checkpoint_named_by_total (cfg : DreamerConfig) (w : World)
    (hd : w.dataDirOk = true) (hm : w.modelDirOk = true)
    (hok : ∀ j, 0 < w.numBatches j) (i : Nat) (name : String)
    (h : Event.saveCheckpoint i name ∈ (run cfg w).1) :
    name = ckptName (cumEnvSteps cfg w i) ∧ i < 1000 ∧
      i % cfg.test_every = 0 := by
  obtain ⟨h1, h2, h3⟩ := saveCheckpoint_mem_run cfg w hd hm hok h
  exact ⟨h3, h1, h2⟩

/-- Witness for `c4_checkpoint_named_by_total` at epoch 0 of a concrete
environment. -/
theorem c4_checkpoint_named_by_total_witness :
    wGood.dataDirOk = true ∧ wGood.modelDirOk = true ∧
    (∀ j, 0 < wGood.numBatches j) ∧
    Event.saveCheckpoint 0 (ckptName (cumEnvSteps defaultConfig wGood 0)) ∈
      (run defaultConfig wGood).1 ∧
    (ckptName (cumEnvSteps defaultConfig wGood 0) =
        ckptName (cumEnvSteps defaultConfig wGood 0) ∧ 0 < 1000 ∧
      0 % defaultConfig.test_every = 0) :=
  ⟨rfl, rfl, fun _ => by simp [wGood],
   (mem_run_test_events defaultConfig wGood rfl rfl (fun _ => by simp [wGood])
      0 (by decide) (by decide)).1,
   c4_checkpoint_named_by_total defaultConfig wGood rfl rfl
     (fun _ => by simp [wGood]) 0 _
     (mem_run_test_events defaultConfig wGood rfl rfl
        (fun _ => by simp [wGood]) 0 (by decide) (by decide)).1⟩

/-! Claim C5. -/

/-- C5 (confirmed): the value logged under "env_steps" in epoch i is the
cumulative pre-action-repeat step counter multiplied by
`config.action_repeats`, while the checkpoint saved at the same point is
named with the unmultiplied counter; the two figures differ by exactly the
action-repeat factor. -/
theorem c5_logged_steps_scaled (cfg : DreamerConfig) (w : World)
    (hd : w.dataDirOk = true) (hm : w.modelDirOk = true)
    (hok : ∀ j, 0 < w.numBatches j) (i : Nat) (hi : i < 1000) :
    (∀ v, Event.logTrain i v ∈ (run cfg w).1 →
      v = cumEnvSteps cfg w i * cfg.action_repeats) ∧
    (∀ name, Event.saveCheckpoint i name ∈ (run cfg w).1 →
      name = ckptName (cumEnvSteps cfg w i)) ∧
    Event.logTrain i (cumEnvSteps cfg w i * cfg.action_repeats) ∈
      (run cfg w).1 ∧
    (i % cfg.test_every = 0 →
      Event.saveCheckpoint i (ckptName (cumEnvSteps cfg w i)) ∈
        (run cfg w).1) := by
  refine ⟨fun v hv => (logTrain_mem_run cfg w hd hm hok hv).2,
    fun name hn => (saveCheckpoint_mem_run cfg w hd hm hok hn).2.2,
    mem_run_logTrain cfg w hd hm hok i hi,
    fun hte => (mem_run_test_events cfg w hd hm hok i hi hte).1⟩

/-- Witness for `c5_logged_steps_scaled` at epoch 0 of a concrete
environment. -/
theorem c5_logged_steps_scaled_witness :
    wGood.dataDirOk = true ∧ wGood.modelDirOk = true ∧
    (∀ j, 0 < wGood.numBatches j) ∧ 0 < 1000 ∧
    ((∀ v, Event.logTrain 0 v ∈ (run defaultConfig wGood).1 →
      v = cumEnvSteps defaultConfig wGood 0 * defaultConfig.action_repeats) ∧
     (∀ name, Event.saveCheckpoint 0 name ∈ (run defaultConfig wGood).1 →
      name = ckptName (cumEnvSteps defaultConfig wGood 0)) ∧
     Event.logTrain 0 (cumEnvSteps defaultConfig wGood 0 *
        defaultConfig.action_repeats) ∈ (run defaultConfig wGood).1 ∧
     (0 % defaultConfig.test_every = 0 →
      Event.saveCheckpoint 0 (ckptName (cumEnvSteps defaultConfig wGood 0)) ∈
        (run defaultConfig wGood).1)) :=
  ⟨rfl, rfl, fun _ => by simp [wGood], by decide,
   c5_logged_steps_scaled defaultConfig wGood rfl rfl
     (fun _ => by simp [wGood]) 0 (by decide)⟩

/-! Claim C6. -/

/-- C6 (confirmed): across a successful run the episode files written are
exactly `pre_{j}.npz` for the j-th prefill episode (only when prefill is
enabled) followed by `{i}.npz` for epoch i, in increasing index order; all
these filenames are distinct and each is written at most once — the store is
append-only. -/
theorem c6_append_only_store (cfg : DreamerConfig) (w : World)
    (hd : w.dataDirOk = true) (hm : w.modelDirOk = true)
    (hok : ∀ j, 0 < w.numBatches j) :
    writeNames (run cfg w).1 =
      (if cfg.prefill_episodes > 0 then
        (List.range w.prefillCount).map preEpisodeName else []) ++
      (List.range' 0 1000).map episodeName ∧
    (writeNames (run cfg w).1).Nodup ∧
    ∀ name, (writeNames (run cfg w).1).count name ≤ 1 := by
  have h2 := nodup_writeNames_run cfg w hd hm hok
  refine ⟨by rw [writeNames_run cfg w hd hm hok]; rfl, h2,
    fun name => List.nodup_iff_count_le_one.mp h2 name⟩

/-- Witness for `c6_append_only_store` at a concrete environment. -/
theorem c6_append_only_store_witness :
    wGood.dataDirOk = true ∧ wGood.modelDirOk = true ∧
    (∀ j, 0 < wGood.numBatches j) ∧
    (writeNames (run defaultConfig wGood).1 =
      (if defaultConfig.prefill_episodes > 0 then
        (List.range wGood.prefillCount).map preEpisodeName else []) ++
      (List.range' 0 1000).map episodeName ∧
     (writeNames (run defaultConfig wGood).1).Nodup ∧
     ∀ name, (writeNames (run defaultConfig wGood).1).count name ≤ 1) :=
  ⟨rfl, rfl, fun _ => by simp [wGood],
   c6_append_only_store defaultConfig wGood rfl rfl
     (fun _ => by simp [wGood])⟩

/-! Claim C7. -/

/-- C7 (confirmed): evaluation plus checkpointing occurs in exactly those
epochs whose index satisfies `i % test_every = 0` (the very first epoch
included), and within such an epoch the checkpoint is saved before the
evaluation episode is collected; in all other epochs no checkpoint is
saved. -/
theorem c7_test_cadence (cfg : DreamerConfig) (w : World)
    (hd : w.dataDirOk = true) (hm : w.modelDirOk = true)
    (hok : ∀ j, 0 < w.numBatches j) (i : Nat) (hi : i < 1000) :
    ((∃ v, Event.testCollect i v ∈ (run cfg w).1) ↔
      i % cfg.test_every = 0) ∧
    (i % cfg.test_every = 0 →
      Precedes (run cfg w).1
        (Event.saveCheckpoint i (ckptName (cumEnvSteps cfg w i)))
        (Event.testCollect i (w.testCollectSteps i))) ∧
    (¬i % cfg.test_every = 0 →
      ∀ name, Event.saveCheckpoint i name ∉ (run cfg w).1) := by
  refine ⟨⟨fun ⟨v, hv⟩ => (testCollect_mem_run cfg w hd hm hok hv).2.1,
    fun hte => ⟨w.testCollectSteps i,
      (mem_run_test_events cfg w hd hm hok i hi hte).2⟩⟩, ?_, ?_⟩
  · intro hte
    rw [run_success cfg w hd hm hok]
    refine Precedes.append_left _ ?_
    refine precedes_runTrace_of_epoch cfg w i 1000 0 (prefillTotal cfg w)
      (prefillFiles cfg w) hi ?_
    simp only [Nat.zero_add, cumEnvSteps_eq]
    exact precedes_testBlock cfg w i
      (prefillTotal cfg w + sumSteps w 0 i)
      (prefillFiles cfg w ++ epochNames 0 i) hte
  · intro hte name hmem
    exact hte (saveCheckpoint_mem_run cfg w hd hm hok hmem).2.1

/-- Witness for `c7_test_cadence` at epoch 0 of a concrete environment. -/
theorem c7_test_cadence_witness :
    wGood.dataDirOk = true ∧ wGood.modelDirOk = true ∧
    (∀ j, 0 < wGood.numBatches j) ∧ 0 < 1000 ∧
    (((∃ v, Event.testCollect 0 v ∈ (run defaultConfig wGood).1) ↔
      0 % defaultConfig.test_every = 0) ∧
     (0 % defaultConfig.test_every = 0 →
      Precedes (run defaultConfig wGood).1
        (Event.saveCheckpoint 0 (ckptName (cumEnvSteps defaultConfig wGood 0)))
        (Event.testCollect 0 (wGood.testCollectSteps 0))) ∧
     (¬0 % defaultConfig.test_every = 0 →
      ∀ name, Event.saveCheckpoint 0 name ∉ (run defaultConfig wGood).1)) :=
  ⟨rfl, rfl, fun _ => by simp [wGood], by decide,
   c7_test_cadence defaultConfig wGood rfl rfl (fun _ => by simp [wGood])
     0 (by decide)⟩

/-! Claim C8. -/

/-- C8 (confirmed): at the end of the run — and, by the loop invariant, at
every epoch boundary — `total_env_steps` equals the prefill step count (zero
when prefill is disabled) plus the sum of the step counts returned by the
per-epoch train collect calls completed so far; the test collector's step
counts never contribute (the total is the same for any world differing only
in test-collect behaviour). -/
theorem c8_total_env_steps_accounting (cfg : DreamerConfig) (w : World)
    (hd : w.dataDirOk = true) (hm : w.modelDirOk = true)
    (hok : ∀ j, 0 < w.numBatches j) :
    (run cfg w).2.2 = prefillTotal cfg w + sumSteps w 0 1000 ∧
    (∀ count start total files,
      (runEpochs cfg w count start total files).2.2 =
        total + sumSteps w start count) ∧
    ∀ w2 : World, w2.prefillSteps = w.prefillSteps →
      w2.collectSteps = w.collectSteps → w2.numBatches = w.numBatches →
      w2.dataDirOk = true → w2.modelDirOk = true →
      (run cfg w2).2.2 = (run cfg w).2.2 := by
  refine ⟨?_, ?_, ?_⟩
  · rw [run_success cfg w hd hm hok]
  · intro count start total files
    rw [runEpochs_success cfg w hok]
  · intro w2 h1 h2 h3 hd2 hm2
    have hok2 : ∀ j, 0 < w2.numBatches j := by rw [h3]; exact hok
    rw [run_success cfg w hd hm hok, run_success cfg w2 hd2 hm2 hok2]
    show prefillTotal cfg w2 + sumSteps w2 0 1000 =
      prefillTotal cfg w + sumSteps w 0 1000
    rw [sumSteps_congr h2]
    unfold prefillTotal
    rw [h1]

/-- Witness for `c8_total_env_steps_accounting` at a concrete environment. -/
theorem c8_total_env_steps_accounting_witness :
    wGood.dataDirOk = true ∧ wGood.modelDirOk = true ∧
    (∀ j, 0 < wGood.numBatches j) ∧
    ((run defaultConfig wGood).2.2 =
      prefillTotal defaultConfig wGood + sumSteps wGood 0 1000 ∧
     (∀ count start total files,
      (runEpochs defaultConfig wGood count start total files).2.2 =
        total + sumSteps wGood start count) ∧
     ∀ w2 : World, w2.prefillSteps = wGood.prefillSteps →
      w2.collectSteps = wGood.collectSteps →
      w2.numBatches = wGood.numBatches →
      w2.dataDirOk = true → w2.modelDirOk = true →
      (run defaultConfig w2).2.2 = (run defaultConfig wGood).2.2) :=
  ⟨rfl, rfl, fun _ => by simp [wGood],
   c8_total_env_steps_accounting defaultConfig wGood rfl rfl
     (fun _ => by simp [wGood])⟩

/-! Claim C9. -/

/-- C9 is false as stated: with the default configuration and an environment
whose trajectory store yields no batches, the run aborts in the very first
epoch — it performs zero optimization steps and collects zero episodes
rather than running 1000 epochs of `training_steps` steps each. -/
theorem c9_counterexample :
    (run defaultConfig wEmptyStore2).2.1 = false ∧
    countTrainSteps (run defaultConfig wEmptyStore2).1 = 0 ∧
    countCollects (run defaultConfig wEmptyStore2).1 = 0 :=
  ⟨rfl, rfl, rfl⟩

/-- C9 (amended): the training loop is bounded — it never performs more than
1000 · `training_steps` optimization steps nor more than 1000 episode
collections; and when every epoch's dataloader yields at least one batch per
pass it runs exactly 1000 epochs of exactly `training_steps` optimization
steps each, each followed by the collection of exactly one episode, and the
process then terminates normally. -/
theorem c9_bounded_loop (cfg : DreamerConfig) (w : World) :
    countTrainSteps (run cfg w).1 ≤ 1000 * cfg.training_steps ∧
    countCollects (run cfg w).1 ≤ 1000 ∧
    (w.dataDirOk = true → w.modelDirOk = true →
      (∀ j, 0 < w.numBatches j) →
      countTrainSteps (run cfg w).1 = 1000 * cfg.training_steps ∧
      countCollects (run cfg w).1 = 1000 ∧ (run cfg w).2.1 = true) := by
  have hbounds : countTrainSteps (run cfg w).1 ≤ 1000 * cfg.training_steps ∧
      countCollects (run cfg w).1 ≤ 1000 := by
    by_cases hdd : w.dataDirOk = true
    · by_cases hmm2 : w.modelDirOk = true
      · rw [run_dirsOk cfg w hdd hmm2]
        constructor
        · simp only [countTrainSteps, List.countP_append]
          have h1 : List.countP isTrainStep (startEvents cfg w) = 0 :=
            countTrainSteps_startEvents cfg w
          have h2 := countTrainSteps_runEpochs_le cfg w 1000 0
            (prefillTotal cfg w) (prefillFiles cfg w)
          simp only [countTrainSteps] at h2
          omega
        · simp only [countCollects, List.countP_append]
          have h1 : List.countP isCollect (startEvents cfg w) = 0 :=
            countCollects_startEvents cfg w
          have h2 := countCollects_runEpochs_le cfg w 1000 0
            (prefillTotal cfg w) (prefillFiles cfg w)
          simp only [countCollects] at h2
          omega
      · have hf : w.modelDirOk = false := by
          revert hmm2; cases w.modelDirOk <;> simp
        have hrun : (run cfg w).1 = [Event.mkdirData] := by
          unfold run
          rw [hdd, hf]
          rfl
        rw [hrun]
        constructor <;> simp [countTrainSteps, countCollects, isTrainStep,
          isCollect]
    · have hf : w.dataDirOk = false := by
        revert hdd; cases w.dataDirOk <;> simp
      have hrun : (run cfg w).1 = [] := by
        unfold run
        rw [hf]
        rfl
      rw [hrun]
      constructor <;> simp [countTrainSteps, countCollects]
  refine ⟨hbounds.1, hbounds.2, fun hd2 hm2 hok => ?_⟩
  rw [run_success cfg w hd2 hm2 hok]
  refine ⟨?_, ?_, rfl⟩
  · simp only [countTrainSteps, List.countP_append]
    have h1 : List.countP isTrainStep (startEvents cfg w) = 0 :=
      countTrainSteps_startEvents cfg w
    have h2 : List.countP isTrainStep (runTrace cfg w 1000 0
        (prefillTotal cfg w) (prefillFiles cfg w)) =
        1000 * cfg.training_steps :=
      countTrainSteps_runTrace cfg w 1000 0 (prefillTotal cfg w)
        (prefillFiles cfg w)
    omega
  · simp only [countCollects, List.countP_append]
    have h1 : List.countP isCollect (startEvents cfg w) = 0 :=
      countCollects_startEvents cfg w
    have h2 : List.countP isCollect (runTrace cfg w 1000 0
        (prefillTotal cfg w) (prefillFiles cfg w)) = 1000 :=
      countCollects_runTrace cfg w 1000 0 (prefillTotal cfg w)
        (prefillFiles cfg w)
    omega

/-- Witness for `c9_bounded_loop` at a concrete environment. -/
theorem c9_bounded_loop_witness :
    (countTrainSteps (run defaultConfig wGood).1 ≤
      1000 * defaultConfig.training_steps ∧
     countCollects (run defaultConfig wGood).1 ≤ 1000 ∧
     (wGood.dataDirOk = true → wGood.modelDirOk = true →
      (∀ j, 0 < wGood.numBatches j) →
      countTrainSteps (run defaultConfig wGood).1 =
        1000 * defaultConfig.training_steps ∧
      countCollects (run defaultConfig wGood).1 = 1000 ∧
      (run defaultConfig wGood).2.1 = true)) ∧
    (countTrainSteps (run defaultConfig wGood).1 =
      1000 * defaultConfig.training_steps ∧
     countCollects (run defaultConfig wGood).1 = 1000 ∧
     (run defaultConfig wGood).2.1 = true) :=
  ⟨c9_bounded_loop defaultConfig wGood,
   (c9_bounded_loop defaultConfig wGood).2.2 rfl rfl
     (fun _ => by simp [wGood])⟩

/-! Claim C10. -/

/-- C10 (confirmed): both directories are created when the configuration
object is constructed — the first two events of any completed startup — and
strictly before the environment, agent or any collector is created; if
creating the data directory fails nothing else happens at all, and if
creating the model directory fails only that first creation has happened:
the run aborts immediately, so no training or collection step is ever
attempted after a directory-setup failure. -/
theorem c10_startup_dirs (cfg : DreamerConfig) (w : World) :
    (w.dataDirOk = false → (run cfg w).1 = [] ∧ (run cfg w).2.1 = false) ∧
    (w.dataDirOk = true → w.modelDirOk = false →
      (run cfg w).1 = [Event.mkdirData] ∧ (run cfg w).2.1 = false) ∧
    (w.dataDirOk = true → w.modelDirOk = true →
      ∃ rest, (run cfg w).1 = Event.mkdirData :: Event.mkdirModel ::
        Event.wandbInit :: Event.envCreate :: Event.agentCreate ::
        Event.collectorCreate true :: rest) := by
  refine ⟨fun hf => ?_, fun ht hf => ?_, fun ht hmok => ?_⟩
  · unfold run
    rw [hf]
    exact ⟨rfl, rfl⟩
  · unfold run
    rw [ht, hf]
    exact ⟨rfl, rfl⟩
  · refine ⟨(prefillBlock cfg w).1 ++ [Event.collectorCreate false] ++
      (runEpochs cfg w 1000 0 (prefillTotal cfg w)
        (prefillFiles cfg w)).1, ?_⟩
    rw [run_dirsOk cfg w ht hmok]
    simp [startEvents]

/-- Witness for `c10_startup_dirs` at three concrete environments: failing
data-directory creation, failing model-directory creation, and a fully
successful startup. -/
theorem c10_startup_dirs_witness :
    wNoDataDir.dataDirOk = false ∧ wNoModelDir.dataDirOk = true ∧
    wNoModelDir.modelDirOk = false ∧ wGood.dataDirOk = true ∧
    wGood.modelDirOk = true ∧
    ((run defaultConfig wNoDataDir).1 = [] ∧
     (run defaultConfig wNoDataDir).2.1 = false) ∧
    ((run defaultConfig wNoModelDir).1 = [Event.mkdirData] ∧
     (run defaultConfig wNoModelDir).2.1 = false) ∧
    ∃ rest, (run defaultConfig wGood).1 = Event.mkdirData ::
      Event.mkdirModel :: Event.wandbInit :: Event.envCreate ::
      Event.agentCreate :: Event.collectorCreate true :: rest :=
  ⟨rfl, rfl, rfl, rfl, rfl,
   (c10_startup_dirs defaultConfig wNoDataDir).1 rfl,
   (c10_startup_dirs defaultConfig wNoModelDir).2.1 rfl rfl,
   (c10_startup_dirs defaultConfig wGood).2.2 rfl rfl⟩

end Dreamer
